import Mathlib

/-!
Verification of the `@danprince/games` library core against its
natural-language specification.

The embedding below is a shallow translation of the TypeScript sources:

* `src/src/utils.ts` — `clamp`, `getKey`, `LRUCache`
* `src/src/tweens.ts` — the tween scheduler (`tween`, `updateTweens`)
* `src/src/core.ts` — the draw-state stack (`save`, `restore`, `view`, `end`)
* `src/src/index.ts` — the input snapshot model (key/pointer events)
* `src/src/particles.ts` — `measure`, `write` cache keys, `draw9Slice`

JavaScript numbers are modelled as rationals (`ℚ`) where interpolation and
division matter, and as integers (`ℤ`) for pixel metrics.  `Infinity`
(the default view width/height) is modelled as `none : Option ℚ`.
Mutable module-level state is passed explicitly as state values.
-/

namespace Games

/-! ## utils.ts: clamp -/

/-- `clamp(min, max, value)` from `src/src/utils.ts`:
returns `min` if `value < min`, `max` if `value > max`, else `value`. -/
def clamp (lo hi v : ℚ) : ℚ :=
  if v < lo then lo else if v > hi then hi else v

theorem clamp_nonneg_le_one (v : ℚ) : 0 ≤ clamp 0 1 v ∧ clamp 0 1 v ≤ 1 := by
  unfold clamp
  split
  · norm_num
  · split
    · norm_num
    · constructor <;> linarith [lt_or_ge v 0, lt_or_ge (1 : ℚ) v]

namespace Tweens

/-! ## tweens.ts: the tween scheduler

Objects tweened by the scheduler are modelled as a heap of numeric
property stores: `Store = objectId → propertyName → ℚ`.  Each tween holds a
reference (`obj : ℕ`) to the object it mutates, mirroring the `object`
field of the `Tween` interface in `src/src/tweens.ts`. -/

abbrev Store := Nat → String → ℚ

/-- Pointwise update of one property of one object. -/
def setProp (st : Store) (o : Nat) (key : String) (v : ℚ) : Store :=
  fun o' k' => if o' = o ∧ k' = key then v else st o' k'

/-- `easeLinear` from `src/src/tweens.ts`: `t => t`. -/
def easeLinear : ℚ → ℚ := fun t => t

/-- `easeInOut` from `src/src/tweens.ts`:
`t => (t *= 2) < 1 ? 0.5 * t * t : -0.5 * (--t * (t - 2) - 1)`. -/
def easeInOut : ℚ → ℚ := fun t =>
  let t2 := t * 2
  if t2 < 1 then 1/2 * t2 * t2 else -(1/2) * ((t2 - 1) * ((t2 - 1) - 2) - 1)

/-- `easeOutBack` from `src/src/tweens.ts`:
`t => --t * t * ((1.70158 + 1) * t + 1.70158) + 1`. -/
def easeOutBack : ℚ → ℚ := fun t =>
  let u := t - 1
  u * u * ((170158/100000 + 1) * u + 170158/100000) + 1

/-- The `Tween` record of `src/src/tweens.ts`.  `to'` is the `to` record as
an association list (its keys are the `keys` array computed by `tween()`),
`from'` is the snapshot of the object's values taken at creation time.

The `group` field is modelled from the spec: the spec's Tween data model
has an optional `groupId` identifier used by `cancelTweens`, but the
`src/src/tweens.ts` `Tween` interface has no such field (only the test
suite calls `cancelTweens`). -/
structure Tween where
  id : Nat
  obj : Nat
  to' : List (String × ℚ)
  from' : String → ℚ
  elapsed : ℚ
  duration : ℚ
  easing : ℚ → ℚ
  group : Option String

/-- Scheduler state: the `_tweens` array plus the heap of tweened objects. -/
structure Sched where
  tweens : List Tween
  object : Store

/-- `tween(object, to, duration, easing)` from `src/src/tweens.ts`:
captures `from[key] = object[key]` for every key of `to` and registers a
new tween with `elapsed = 0`. -/
def tween (store : Store) (objId : Nat) (to' : List (String × ℚ))
    (duration : ℚ) (easing : ℚ → ℚ) (group : Option String) (id : Nat) : Tween :=
  { id := id
    obj := objId
    to' := to'
    from' := fun k => store objId k
    elapsed := 0
    duration := duration
    easing := easing
    group := group }

/-- One iteration body of the `for (let key of tween.keys)` loop in
`updateTweens`: `object[key] = from[key] + (to[key] - from[key]) * k`. -/
def applyStep (st : Store) (tw : Tween) (k : ℚ) : Store :=
  tw.to'.foldl
    (fun st p => setProp st tw.obj p.1 (tw.from' p.1 + (p.2 - tw.from' p.1) * k))
    st

/-- The main loop of `updateTweens` (`src/src/tweens.ts` lines 76–93):
for each tween, `elapsed += dt`, `t = clamp(0, 1, elapsed / duration)`,
`k = easing(t)`, apply every property, call the callback with `t`, and
fire `done()` if `elapsed >= duration`.  Returns the updated store, the
updated tween list, the `t` values passed to the callbacks (tagged with
the tween id), and the ids whose completion fired. -/
def updateLoop (dt : ℚ) (store : Store) :
    List Tween → Store × List Tween × List (Nat × ℚ) × List Nat
  | [] => (store, [], [], [])
  | tw :: rest =>
    let tw' := { tw with elapsed := tw.elapsed + dt }
    let t := clamp 0 1 (tw'.elapsed / tw'.duration)
    let k := tw'.easing t
    let store' := applyStep store tw' k
    let r := updateLoop dt store' rest
    (r.1, tw' :: r.2.1, (tw.id, t) :: r.2.2.1,
      (if tw'.duration ≤ tw'.elapsed then [tw.id] else []) ++ r.2.2.2)

/-- `updateTweens(dt)` from `src/src/tweens.ts`: run the loop, then
`_tweens = _tweens.filter(tween => tween.elapsed < tween.duration)`. -/
def updateTweens (dt : ℚ) (s : Sched) : Sched × List (Nat × ℚ) × List Nat :=
  let r := updateLoop dt s.object s.tweens
  ({ tweens := r.2.1.filter (fun tw => decide (tw.elapsed < tw.duration))
     object := r.1 },
   r.2.2.1, r.2.2.2)

/-- Advance the scheduler once per frame delta, collecting the per-update
callback records and completion records. -/
def runUpdates : List ℚ → Sched → Sched × List (List (Nat × ℚ)) × List (List Nat)
  | [], s => (s, [], [])
  | d :: ds, s =>
    let r := updateTweens d s
    let r' := runUpdates ds r.1
    (r'.1, r.2.1 :: r'.2.1, r.2.2 :: r'.2.2)

/-- The all-zero object heap. -/
def store0 : Store := fun _ _ => 0

/-- The C1 scenario: one tween on object 0, property "a", created with
`from=0, to=100, duration=1000` and the linear easing. -/
def sched0 : Sched :=
  { tweens := [tween store0 0 [("a", 100)] 1000 easeLinear none 0]
    object := store0 }

/-- The single C1 tween at elapsed time `e`. -/
def tw0 (e : ℚ) : Tween :=
  { id := 0, obj := 0, to' := [("a", 100)], from' := fun _ => 0,
    elapsed := e, duration := 1000, easing := easeLinear, group := none }

lemma updateTweens_tw0 (e d : ℚ) (store : Store) :
    updateTweens d { tweens := [tw0 e], object := store } =
      ({ tweens := if e + d < 1000 then [tw0 (e + d)] else []
         object := setProp store 0 "a" (100 * clamp 0 1 ((e + d) / 1000)) },
       [(0, clamp 0 1 ((e + d) / 1000))],
       if 1000 ≤ e + d then [0] else []) := by
  simp only [updateTweens, updateLoop, applyStep, tw0, easeLinear, List.foldl, List.filter]
  by_cases h : e + d < 1000
  · simp [h, not_le.mpr h]
  · simp [h, not_lt.mp h]

lemma runUpdates_empty_tweens (dts : List ℚ) (store : Store) :
    runUpdates dts { tweens := [], object := store } =
      ({ tweens := [], object := store },
       dts.map (fun _ => []), dts.map (fun _ => [])) := by
  induction dts with
  | nil => rfl
  | cons d rest ih =>
    simp only [runUpdates, updateTweens, updateLoop, List.filter, List.map, ih]

lemma clamp_eq_one {v : ℚ} (h : 1 ≤ v) : clamp 0 1 v = 1 := by
  unfold clamp
  rw [if_neg (by linarith)]
  by_cases h2 : v > 1
  · rw [if_pos h2]
  · rw [if_neg h2]
    linarith [not_lt.mp h2]

lemma clamp_eq_self {v : ℚ} (h0 : 0 ≤ v) (h1 : v ≤ 1) : clamp 0 1 v = v := by
  unfold clamp
  rw [if_neg (by linarith), if_neg (by simp [not_lt]; linarith)]

lemma setProp_get (st : Store) (o : Nat) (k : String) (v : ℚ) :
    setProp st o k v o k = v := by
  simp [setProp]

lemma runUpdates_tw0_value (dts : List ℚ) (e : ℚ) (store : Store) (hne : dts ≠ [])
    (hd : ∀ d ∈ dts, 0 ≤ d) :
    (runUpdates dts { tweens := [tw0 e], object := store }).1.object 0 "a" =
      100 * clamp 0 1 ((e + dts.sum) / 1000) := by
  induction dts generalizing e store with
  | nil => exact absurd rfl hne
  | cons d rest ih =>
    simp only [runUpdates, updateTweens_tw0]
    rcases eq_or_ne rest [] with hrest | hrest
    · subst hrest
      by_cases h : e + d < 1000 <;>
        simp [h, runUpdates, setProp, List.sum_cons, List.sum_nil]
    · by_cases h : e + d < 1000
      · have := ih (e + d) (setProp store 0 "a" (100 * clamp 0 1 ((e + d) / 1000))) hrest
          (fun x hx => hd x (List.mem_cons_of_mem d hx))
        simp only [h, if_pos] at *
        rw [this, List.sum_cons, add_assoc]
      · simp only [h, if_neg, if_false]
        rw [runUpdates_empty_tweens]
        have h1000 : (1000 : ℚ) ≤ e + d := not_lt.mp h
        have hsum : (0 : ℚ) ≤ rest.sum :=
          List.sum_nonneg (fun x hx => hd x (List.mem_cons_of_mem d hx))
        simp only [setProp_get, List.sum_cons]
        rw [clamp_eq_one (by rw [le_div_iff₀ (by norm_num : (0:ℚ) < 1000)]; linarith),
          clamp_eq_one (by rw [le_div_iff₀ (by norm_num : (0:ℚ) < 1000)]; linarith)]

lemma runUpdates_tw0_done (dts : List ℚ) (e : ℚ) (store : Store) (he2 : e < 1000)
    (hd : ∀ d ∈ dts, 0 ≤ d) (hsum : 1000 ≤ e + dts.sum) :
    (runUpdates dts { tweens := [tw0 e], object := store }).1.tweens = [] := by
  induction dts generalizing e store with
  | nil => simp at hsum; linarith
  | cons d rest ih =>
    simp only [runUpdates, updateTweens_tw0]
    by_cases h : e + d < 1000
    · simp only [h, if_pos]
      exact ih (e + d) _ h (fun x hx => hd x (List.mem_cons_of_mem d hx))
        (by rw [List.sum_cons] at hsum; linarith)
    · simp only [h, if_neg, if_false]
      rw [runUpdates_empty_tweens]

lemma getD_map_nil {α : Type} (l : List α) (j : ℕ) :
    (l.map (fun _ => ([] : List ℕ))).getD j [] = [] := by
  induction l generalizing j with
  | nil => simp [List.getD]
  | cons x xs ih => cases j <;> simp [List.getD, ih]

lemma runUpdates_tw0_dones (dts : List ℚ) (e : ℚ) (store : Store) (he2 : e < 1000)
    (hd : ∀ d ∈ dts, 0 ≤ d) (j : ℕ) :
    (runUpdates dts { tweens := [tw0 e], object := store }).2.2.getD j [] =
      if 1000 ≤ e + (dts.take (j + 1)).sum ∧ e + (dts.take j).sum < 1000 then [0]
      else [] := by
  induction dts generalizing e store j with
  | nil =>
    simp [runUpdates, List.getD]
  | cons d rest ih =>
    simp only [runUpdates, updateTweens_tw0]
    by_cases h : e + d < 1000
    · simp only [h, if_pos, not_le.mpr h, if_neg, if_false]
      cases j with
      | zero =>
        simp [List.getD]
        intro hc
        linarith
      | succ j =>
        have := ih (e + d) (setProp store 0 "a" (100 * clamp 0 1 ((e + d) / 1000))) h
          (fun x hx => hd x (List.mem_cons_of_mem d hx)) j
        simp only [List.getD_cons_succ]
        rw [this, List.take_succ_cons, List.take_succ_cons, List.sum_cons, List.sum_cons,
          add_assoc, add_assoc]
    · simp only [h, if_neg, if_false, not_lt.mp h, if_pos]
      rw [runUpdates_empty_tweens]
      have h1000 : (1000 : ℚ) ≤ e + d := not_lt.mp h
      cases j with
      | zero =>
        simp [List.getD, he2, h1000]
      | succ j =>
        simp only [List.getD_cons_succ]
        rw [getD_map_nil]
        have htake : (0 : ℚ) ≤ (rest.take j).sum :=
          List.sum_nonneg (fun x hx =>
            hd x (List.mem_cons_of_mem d (List.mem_of_mem_take hx)))
        rw [if_neg]
        rintro ⟨-, hc⟩
        rw [List.take_succ_cons, List.sum_cons] at hc
        linarith

lemma sched_eta (s : Sched) (h : s.tweens = []) :
    s = { tweens := [], object := s.object } := by
  cases s
  simp_all

/-- Claim C1: for a tween created with `from=0, to=100, duration=1000` and the
linear easing, advancing the scheduler by `dt=100` five consecutive times sets
the tracked property to 10, 20, 30, 40, 50; and for any sequence of
non-negative deltas whose sum reaches at least 1000, the property equals
exactly 100, the completion signal fires exactly once — namely on the first
update where the cumulative elapsed time reaches the duration (the per-update
completion record is `[0]` exactly at the first crossing index and empty at
every other index) — and the tween is removed from the active set, so any
further updates leave the scheduler unchanged and fire nothing. -/
theorem c1_tween_determinism :
    ((runUpdates [100] sched0).1.object 0 "a" = 10 ∧
     (runUpdates [100, 100] sched0).1.object 0 "a" = 20 ∧
     (runUpdates [100, 100, 100] sched0).1.object 0 "a" = 30 ∧
     (runUpdates [100, 100, 100, 100] sched0).1.object 0 "a" = 40 ∧
     (runUpdates [100, 100, 100, 100, 100] sched0).1.object 0 "a" = 50) ∧
    ∀ dts : List ℚ, (∀ d ∈ dts, 0 ≤ d) → 1000 ≤ dts.sum →
      (runUpdates dts sched0).1.object 0 "a" = 100 ∧
      (runUpdates dts sched0).1.tweens = [] ∧
      (∀ j : ℕ, (runUpdates dts sched0).2.2.getD j [] =
        if 1000 ≤ (dts.take (j + 1)).sum ∧ (dts.take j).sum < 1000 then [0] else []) ∧
      (∀ extra : List ℚ, runUpdates extra (runUpdates dts sched0).1 =
        ((runUpdates dts sched0).1,
         extra.map (fun _ => []), extra.map (fun _ => []))) := by
  have hs : sched0 = { tweens := [tw0 0], object := store0 } := rfl
  constructor
  · refine ⟨?_, ?_, ?_, ?_, ?_⟩ <;>
    · rw [hs, runUpdates_tw0_value _ 0 store0 (by simp) (by norm_num),
        clamp_eq_self (by norm_num) (by norm_num)]
      norm_num
  · intro dts hd hsum
    have hne : dts ≠ [] := by
      rintro rfl
      norm_num at hsum
    have hvalue : (runUpdates dts sched0).1.object 0 "a" = 100 := by
      rw [hs, runUpdates_tw0_value _ 0 store0 hne hd,
        clamp_eq_one (by rw [le_div_iff₀ (by norm_num : (0:ℚ) < 1000)]; linarith)]
      norm_num
    have hdone : (runUpdates dts sched0).1.tweens = [] := by
      rw [hs]
      exact runUpdates_tw0_done dts 0 store0 (by norm_num) hd (by linarith)
    refine ⟨hvalue, hdone, ?_, ?_⟩
    · intro j
      rw [hs, runUpdates_tw0_dones dts 0 store0 (by norm_num) hd j]
      simp only [zero_add]
    · intro extra
      rw [sched_eta _ hdone, runUpdates_empty_tweens]

/-- Witness for C1 at the concrete delta sequence `[600, 700]`. -/
theorem c1_witness :
    (∀ d ∈ [(600 : ℚ), 700], 0 ≤ d) ∧
      (runUpdates [600, 700] sched0).1.object 0 "a" = 100 ∧
      (runUpdates [600, 700] sched0).1.tweens = [] := by
  have h1 : ∀ d ∈ [(600 : ℚ), 700], 0 ≤ d := by norm_num
  have h2 := c1_tween_determinism.2 [600, 700] h1 (by norm_num)
  exact ⟨h1, h2.1, h2.2.1⟩

lemma updateLoop_steps_mem (dt : ℚ) (store : Store) (tws : List Tween) :
    ∀ p ∈ (updateLoop dt store tws).2.2.1, 0 ≤ p.2 ∧ p.2 ≤ 1 := by
  induction tws generalizing store with
  | nil => simp [updateLoop]
  | cons tw rest ih =>
    intro p hp
    simp only [updateLoop, List.mem_cons] at hp
    rcases hp with rfl | hp
    · exact clamp_nonneg_le_one _
    · exact ih _ p hp

lemma runUpdates_steps_mem (dts : List ℚ) (s : Sched) :
    ∀ l ∈ (runUpdates dts s).2.1, ∀ p ∈ l, 0 ≤ p.2 ∧ p.2 ≤ 1 := by
  induction dts generalizing s with
  | nil => simp [runUpdates]
  | cons d rest ih =>
    intro l hl
    simp only [runUpdates, List.mem_cons] at hl
    rcases hl with rfl | hl
    · exact updateLoop_steps_mem d s.object s.tweens
    · exact ih _ l hl

/-- Claim C10: for tweens of strictly positive duration and any sequence of
non-negative frame deltas, the progress value `t` computed by every scheduler
update — the value passed to the easing function (`k = easing(t)` in
`updateLoop`) and recorded as the per-step callback argument — always lies in
`[0, 1]`, because `updateTweens` clamps `elapsed / duration` into that range.
(The JavaScript caveat of the claim, `duration = 0` advanced by a zero delta
producing `0/0 = NaN`, concerns IEEE float semantics with no counterpart in
this rational model and is not asserted here.) -/
theorem c10_step_progress_bounded (s : Sched) (dts : List ℚ)
    (hdur : ∀ tw ∈ s.tweens, 0 < tw.duration ∧ 0 ≤ tw.elapsed)
    (hd : ∀ d ∈ dts, 0 ≤ d) :
    ∀ l ∈ (runUpdates dts s).2.1, ∀ p ∈ l, 0 ≤ p.2 ∧ p.2 ≤ 1 :=
  runUpdates_steps_mem dts s

/-- Witness for C10 on the C1 scheduler advanced by `[100, 2000]`. -/
theorem c10_witness :
    (∀ tw ∈ sched0.tweens, 0 < tw.duration ∧ 0 ≤ tw.elapsed) ∧
      (∀ l ∈ (runUpdates [100, 2000] sched0).2.1, ∀ p ∈ l, 0 ≤ p.2 ∧ p.2 ≤ 1) := by
  have h : ∀ tw ∈ sched0.tweens, 0 < tw.duration ∧ 0 ≤ tw.elapsed := by
    intro tw htw
    simp only [sched0, tween, List.mem_singleton] at htw
    subst htw
    norm_num
  exact ⟨h, c10_step_progress_bounded sched0 [100, 2000] h (by norm_num)⟩

/-- Modelled from the spec: `cancelTweens(id)` is called by the test suite via
the library entry point but is absent from `src/src/tweens.ts`; the spec
(§4.4) requires it to, "for every active tween whose group matches `id`,
immediately snap every tracked property to its `to` value (i.e., force `t=1`
application) and fire completion", removing those tweens from the active set
and leaving every other tween untouched. `snapList` writes a list of
property/value pairs into one object. -/
def snapList (st : Store) (o : Nat) (l : List (String × ℚ)) : Store :=
  l.foldl (fun st p => setProp st o p.1 p.2) st

/-- Modelled from the spec: one tween's `t = 1` application — every tracked
property is set to its `to` value. -/
def snapTween (st : Store) (tw : Tween) : Store :=
  snapList st tw.obj tw.to'

/-- Modelled from the spec: the `cancelTweens(id)` operation.  Returns the new
scheduler state together with the ids of the tweens whose completion signal
fired. -/
def cancelTweens (id : String) (s : Sched) : Sched × List Nat :=
  let matching := s.tweens.filter (fun tw => decide (tw.group = some id))
  ({ tweens := s.tweens.filter (fun tw => decide (¬tw.group = some id))
     object := matching.foldl snapTween s.object },
   matching.map (fun tw => tw.id))

/-- The object/property cells written by a tween's `t=1` application. -/
def targets (tw : Tween) : List (Nat × String) :=
  tw.to'.map (fun p => (tw.obj, p.1))

/-- All cells written when cancelling the given tween list. -/
def allTargets (l : List Tween) : List (Nat × String) :=
  (l.map targets).flatten

lemma allTargets_cons (m : Tween) (rest : List Tween) :
    allTargets (m :: rest) = targets m ++ allTargets rest := by
  simp [allTargets]

lemma snapList_get_other (st : Store) (o : Nat) (l : List (String × ℚ))
    (o' : Nat) (k : String) (h : o' ≠ o ∨ k ∉ l.map Prod.fst) :
    snapList st o l o' k = st o' k := by
  induction l generalizing st with
  | nil => rfl
  | cons p rest ih =>
    show snapList (setProp st o p.1 p.2) o rest o' k = st o' k
    rw [ih _ (by rcases h with h | h; exacts [Or.inl h, Or.inr (fun hc => h (by simp [hc]))])]
    have : ¬(o' = o ∧ k = p.1) := by
      rintro ⟨rfl, rfl⟩
      rcases h with h | h
      · exact h rfl
      · exact h (by simp)
    simp [setProp, this]

lemma snapList_get_mem (st : Store) (o : Nat) (l : List (String × ℚ))
    (k : String) (v : ℚ) (hnd : (l.map Prod.fst).Nodup) (h : (k, v) ∈ l) :
    snapList st o l o k = v := by
  induction l generalizing st with
  | nil => cases h
  | cons p rest ih =>
    simp only [List.map_cons, List.nodup_cons] at hnd
    rcases List.mem_cons.mp h with rfl | hmem
    · show snapList (setProp st o k v) o rest o k = v
      rw [snapList_get_other _ _ _ _ _ (Or.inr hnd.1), setProp_get]
    · exact ih _ hnd.2 hmem

lemma foldl_snap_other (l : List Tween) (st : Store) (o : Nat) (k : String)
    (h : (o, k) ∉ allTargets l) : (l.foldl snapTween st) o k = st o k := by
  induction l generalizing st with
  | nil => rfl
  | cons m rest ih =>
    rw [allTargets_cons, List.mem_append, not_or] at h
    rw [List.foldl_cons, ih _ h.2]
    apply snapList_get_other
    by_cases ho : o = m.obj
    · subst ho
      refine Or.inr fun hc => h.1 ?_
      unfold targets
      rcases List.mem_map.mp hc with ⟨p, hp, hpk⟩
      exact List.mem_map.mpr ⟨p, hp, by simp [hpk]⟩
    · exact Or.inl ho

lemma targets_keys_nodup (m : Tween) (h : (targets m).Nodup) :
    (m.to'.map Prod.fst).Nodup := by
  unfold targets at h
  have : m.to'.map (fun p => (m.obj, p.1)) =
      (m.to'.map Prod.fst).map (fun key => (m.obj, key)) := by
    rw [List.map_map]
    rfl
  rw [this] at h
  exact h.of_map _

lemma foldl_snap_mem (l : List Tween) (st : Store)
    (hnd : (allTargets l).Nodup) (tw : Tween) (htw : tw ∈ l) (k : String) (v : ℚ)
    (hkv : (k, v) ∈ tw.to') : (l.foldl snapTween st) tw.obj k = v := by
  induction l generalizing st with
  | nil => cases htw
  | cons m rest ih =>
    rw [allTargets_cons, List.nodup_append] at hnd
    rcases List.mem_cons.mp htw with rfl | hmem
    · rw [List.foldl_cons, foldl_snap_other rest _ tw.obj k]
      · exact snapList_get_mem _ _ _ _ _ (targets_keys_nodup tw hnd.1) hkv
      · intro hc
        refine hnd.2.2 ?_ hc
        exact List.mem_map.mpr ⟨(k, v), hkv, rfl⟩
    · rw [List.foldl_cons]
      exact ih _ hnd.2.1 hmem

/-- Claim C3 (spec-modelled): `cancelTweens(id)` snaps every tracked property
of every matching tween (group equal to `id`) to its `to` value and fires that
tween's completion signal, removing it from the active set, while every
non-matching tween stays in the active set and the object store is unchanged
on every cell not targeted by a matching tween.  The per-tween `to`-value
conclusion assumes the matching tweens write pairwise distinct cells (with
overlapping targets the later tween in scheduling order wins, as in the
source's sequential loop). -/
theorem c3_cancel_tweens (s : Sched) (id : String) :
    (∀ tw ∈ s.tweens, tw.group = some id →
      tw.id ∈ (cancelTweens id s).2 ∧ tw ∉ (cancelTweens id s).1.tweens) ∧
    (∀ tw ∈ s.tweens, tw.group ≠ some id → tw ∈ (cancelTweens id s).1.tweens) ∧
    (∀ (o : Nat) (k : String),
      (o, k) ∉ allTargets (s.tweens.filter (fun tw => decide (tw.group = some id))) →
      (cancelTweens id s).1.object o k = s.object o k) ∧
    ((allTargets (s.tweens.filter (fun tw => decide (tw.group = some id)))).Nodup →
      ∀ tw ∈ s.tweens, tw.group = some id → ∀ p ∈ tw.to',
        (cancelTweens id s).1.object tw.obj p.1 = p.2) := by
  refine ⟨?_, ?_, ?_, ?_⟩
  · intro tw htw hg
    constructor
    · exact List.mem_map.mpr ⟨tw, List.mem_filter.mpr ⟨htw, by simp [hg]⟩, rfl⟩
    · intro hc
      have := (List.mem_filter.mp hc).2
      simp [hg] at this
  · intro tw htw hg
    exact List.mem_filter.mpr ⟨htw, by simp [hg]⟩
  · intro o k hok
    exact foldl_snap_other _ _ _ _ hok
  · intro hnd tw htw hg p hp
    have htw' : tw ∈ s.tweens.filter (fun tw => decide (tw.group = some id)) :=
      List.mem_filter.mpr ⟨htw, by simp [hg]⟩
    have := foldl_snap_mem _ s.object hnd tw htw' p.1 p.2 (by simpa using hp)
    exact this

/-- The three tweens of the spec's cancellation scenario, 50ms into a 100ms
duration: two share group "t", one has no group; all interpolate 0 → 100. -/
def twA : Tween :=
  { id := 0, obj := 0, to' := [("a", 100)], from' := fun _ => 0,
    elapsed := 50, duration := 100, easing := easeLinear, group := some "t" }

def twB : Tween :=
  { id := 1, obj := 0, to' := [("b", 100)], from' := fun _ => 0,
    elapsed := 50, duration := 100, easing := easeLinear, group := some "t" }

def twC : Tween :=
  { id := 2, obj := 0, to' := [("c", 100)], from' := fun _ => 0,
    elapsed := 50, duration := 100, easing := easeLinear, group := none }

/-- Mid-flight store for the cancellation scenario: every property is at its
50%-interpolated value 50. -/
def storeMid : Store := fun _ _ => 50

def sched3 : Sched := { tweens := [twA, twB, twC], object := storeMid }

/-- Witness for C3: cancelling group "t" in the three-tween scenario snaps
`a` and `b` to 100, leaves `c` at its interpolated value 50, fires the two
members' completions, and keeps the non-member active. -/
theorem c3_witness :
    (allTargets (sched3.tweens.filter (fun tw => decide (tw.group = some "t")))).Nodup ∧
      (cancelTweens "t" sched3).1.object 0 "a" = 100 ∧
      (cancelTweens "t" sched3).1.object 0 "b" = 100 ∧
      (cancelTweens "t" sched3).1.object 0 "c" = 50 ∧
      0 ∈ (cancelTweens "t" sched3).2 ∧
      1 ∈ (cancelTweens "t" sched3).2 ∧
      twC ∈ (cancelTweens "t" sched3).1.tweens := by
  have hnd : (allTargets (sched3.tweens.filter
      (fun tw => decide (tw.group = some "t")))).Nodup := by
    simp [sched3, twA, twB, twC, allTargets, targets]
  have h := c3_cancel_tweens sched3 "t"
  refine ⟨hnd, ?_, ?_, ?_, ?_, ?_, ?_⟩
  · exact h.2.2.2 hnd twA (by simp [sched3]) rfl ("a", 100) (by simp [twA])
  · exact h.2.2.2 hnd twB (by simp [sched3]) rfl ("b", 100) (by simp [twB])
  · have := h.2.2.1 0 "c" (by simp [sched3, twA, twB, twC, allTargets, targets])
    rw [this]
    rfl
  · exact (h.1 twA (by simp [sched3]) rfl).1
  · exact (h.1 twB (by simp [sched3]) rfl).1
  · exact h.2.1 twC (by simp [sched3]) (by simp [twC])


end Tweens

namespace Text

/-! ## particles.ts: text measurement

`measure` (`src/src/particles.ts` lines 1220–1241, identical in
`src/unnamed/part_005`) walks the string once, accumulating
`(lineWidth, boxWidth, boxHeight)`.  Pixel metrics are modelled as `ℤ`;
strings are modelled as `List Char`. -/

/-- The `Font` interface (`src/src/index.ts`): `glyphWidthsTable` maps a
character to an override width, `none` meaning "use `glyphWidth`". -/
structure Font where
  url : String
  glyphWidth : ℤ
  glyphHeight : ℤ
  lineHeight : ℤ
  glyphWidthsTable : Char → Option ℤ

/-- `glyphWidthsTable[char] ?? glyphWidth`. -/
def charWidth (f : Font) (c : Char) : ℤ :=
  (f.glyphWidthsTable c).getD f.glyphWidth

/-- One iteration of the `measure` loop over `(lineWidth, boxWidth, boxHeight)`:
a newline folds the current line into the box and starts a new line, any other
character extends the current line. -/
def measureStep (f : Font) (acc : ℤ × ℤ × ℤ) (c : Char) : ℤ × ℤ × ℤ :=
  if c = '\n' then (0, max acc.2.1 acc.1, acc.2.2 + f.lineHeight)
  else (acc.1 + charWidth f c, acc.2.1, acc.2.2)

/-- `measure(text)` from `src/src/particles.ts`: returns `(w, h)`.  The
accumulator starts at `(0, 0, lineHeight)` and the final line is folded into
the box width at the end ("Ensure that the final line fits in the box"). -/
def measure (f : Font) (text : List Char) : ℤ × ℤ :=
  let r := text.foldl (measureStep f) (0, 0, f.lineHeight)
  (max r.2.1 r.1, r.2.2)

/-- Split into (first line, remaining lines) at newline characters. -/
def splitAux : List Char → List Char × List (List Char)
  | [] => ([], [])
  | c :: rest =>
    let r := splitAux rest
    if c = '\n' then ([], r.1 :: r.2) else (c :: r.1, r.2)

/-- The lines of a text, as separated by `\n`; a trailing newline yields a
trailing empty line, and the empty text has one empty line. -/
def splitLines (text : List Char) : List (List Char) :=
  (splitAux text).1 :: (splitAux text).2

/-- The rendered width of one line: the sum of its glyph widths. -/
def lineWidth (f : Font) (l : List Char) : ℤ :=
  (l.map (charWidth f)).sum

lemma measure_def (f : Font) (text : List Char) :
    measure f text =
      (max (text.foldl (measureStep f) (0, 0, f.lineHeight)).2.1
        (text.foldl (measureStep f) (0, 0, f.lineHeight)).1,
       (text.foldl (measureStep f) (0, 0, f.lineHeight)).2.2) := rfl

lemma splitAux_newline (rest : List Char) :
    splitAux ('\n' :: rest) = ([], (splitAux rest).1 :: (splitAux rest).2) := by
  simp [splitAux]

lemma splitAux_other (c : Char) (rest : List Char) (hc : ¬c = '\n') :
    splitAux (c :: rest) = (c :: (splitAux rest).1, (splitAux rest).2) := by
  simp [splitAux, hc]

lemma measure_foldl_height (f : Font) (text : List Char) :
    ∀ lw bw bh, (text.foldl (measureStep f) (lw, bw, bh)).2.2 =
      bh + f.lineHeight * (text.count '\n' : ℤ) := by
  induction text with
  | nil => simp
  | cons c rest ih =>
    intro lw bw bh
    by_cases hc : c = '\n'
    · subst hc
      simp only [List.foldl_cons, measureStep, if_pos rfl, ih, List.count_cons,
        beq_self_eq_true, if_pos]
      push_cast
      ring
    · simp only [List.foldl_cons, measureStep, if_neg hc, ih, List.count_cons]
      have hcc : ¬('\n' = c) := fun hh => hc hh.symm
      simp [hcc]
      exact Or.inl hc

lemma measure_foldl_no_newline (f : Font) (text : List Char) (hnn : '\n' ∉ text) :
    ∀ lw bw bh, text.foldl (measureStep f) (lw, bw, bh) =
      (lw + lineWidth f text, bw, bh) := by
  induction text with
  | nil => simp [lineWidth]
  | cons c rest ih =>
    intro lw bw bh
    have hc : ¬c = '\n' := fun hh => hnn (hh ▸ List.mem_cons_self c rest)
    rw [List.foldl_cons, measureStep, if_neg hc,
      ih (fun hh => hnn (List.mem_cons_of_mem c hh))]
    simp [lineWidth, add_assoc]

lemma measure_foldl_width (f : Font) (text : List Char) :
    ∀ lw bw bh,
      max (text.foldl (measureStep f) (lw, bw, bh)).2.1
          (text.foldl (measureStep f) (lw, bw, bh)).1 =
        ((lw + lineWidth f (splitAux text).1) ::
            (splitAux text).2.map (lineWidth f)).foldl max bw := by
  induction text with
  | nil => simp [splitAux, lineWidth, max_comm]
  | cons c rest ih =>
    intro lw bw bh
    by_cases hc : c = '\n'
    · subst hc
      rw [List.foldl_cons, measureStep, if_pos rfl, splitAux_newline]
      dsimp only
      rw [ih 0 (max bw lw) (bh + f.lineHeight)]
      simp [lineWidth]
    · rw [List.foldl_cons, measureStep, if_neg hc, splitAux_other c rest hc]
      dsimp only
      rw [ih (lw + charWidth f c) bw bh]
      simp [lineWidth, add_assoc]

lemma list_sum_nonneg_int (l : List ℤ) (h : ∀ x ∈ l, 0 ≤ x) : 0 ≤ l.sum :=
  List.sum_nonneg h

/-- Claim C4: `measure(text).h = lineHeight * (n + 1)` where `n` is the number
of newline characters; for a (non-empty) text without newlines
`measure(text).h = lineHeight` and, for fonts with non-negative glyph widths,
`measure(text).w` is the sum of the per-character widths
(`glyphWidthsTable[c] ?? glyphWidth`); and in general the returned width is the
source's fold of `max` over the widths of all lines of the text (starting from
the initial box width 0, with the trailing line counted even when empty). -/
theorem c4_measure (f : Font) :
    (∀ text : List Char,
      (measure f text).2 = f.lineHeight * ((text.count '\n' : ℤ) + 1)) ∧
    (0 ≤ f.glyphWidth → (∀ c w, f.glyphWidthsTable c = some w → 0 ≤ w) →
      ∀ text : List Char, text ≠ [] → '\n' ∉ text →
        (measure f text).2 = f.lineHeight ∧
        (measure f text).1 = (text.map (charWidth f)).sum) ∧
    (∀ text : List Char,
      (measure f text).1 = ((splitLines text).map (lineWidth f)).foldl max 0) := by
  have hh : ∀ text : List Char,
      (measure f text).2 = f.lineHeight * ((text.count '\n' : ℤ) + 1) := by
    intro text
    rw [measure_def]
    dsimp only
    rw [measure_foldl_height]
    ring
  refine ⟨hh, ?_, ?_⟩
  · intro hgw htab text hne hnn
    constructor
    · rw [hh text, List.count_eq_zero.mpr ?_]
      · norm_num
      · simpa using hnn
    · rw [measure_def]
      dsimp only
      rw [measure_foldl_no_newline f text hnn]
      dsimp only
      simp only [zero_add]
      have : 0 ≤ (text.map (charWidth f)).sum := by
        apply list_sum_nonneg_int
        intro x hx
        rcases List.mem_map.mp hx with ⟨c, -, rfl⟩
        unfold charWidth
        cases hw : f.glyphWidthsTable c with
        | none => simpa using hgw
        | some w => simpa using htab c w hw
      simpa [lineWidth] using max_eq_right this
  · intro text
    rw [measure_def]
    dsimp only
    rw [measure_foldl_width f text 0 0 f.lineHeight]
    simp [splitLines, lineWidth]

/-- A concrete font (metrics of the repository's `font2` fixture, plus one
override) used by witnesses. -/
def font2 : Font :=
  { url := "font2.png", glyphWidth := 6, glyphHeight := 6, lineHeight := 7,
    glyphWidthsTable := fun c => if c = 'i' then some 3 else none }

/-- Witness for C4 on the font above and the texts "hi" and "a\nb". -/
theorem c4_witness :
    ((0 : ℤ) ≤ font2.glyphWidth ∧ (['h', 'i'] : List Char) ≠ [] ∧
      '\n' ∉ (['h', 'i'] : List Char)) ∧
      (measure font2 ['h', 'i']).2 = 7 ∧
      (measure font2 ['h', 'i']).1 = 9 ∧
      (measure font2 ['a', '\n', 'b']).2 = 14 := by
  have h := c4_measure font2
  have h2 := h.2.1 (by decide)
    (by
      intro c w hw
      simp only [font2] at hw
      split at hw
      · cases hw
        norm_num
      · cases hw)
    ['h', 'i'] (by simp) (by decide)
  refine ⟨⟨by decide, by simp, by decide⟩, ?_, ?_, ?_⟩
  · rw [h2.1]
    decide
  · rw [h2.2]
    decide
  · rw [h.1 ['a', '\n', 'b']]
    decide

end Text

namespace Core

/-! ## core.ts: the draw-state stack

`_state` and `_stack` from `src/src/core.ts`, with the operations `save`,
`restore`, `view`, `end`, `font`, `color`, `cursor`.  `Fill` values are
modelled as strings (CSS colors); the `Infinity` defaults of the view
width/height are modelled as `none : Option ℚ`, and `w ?? _state.w` becomes
an `Option` match. -/

/-- The `DrawState` record of `src/src/core.ts`. -/
structure DrawState where
  x : ℚ
  y : ℚ
  w : Option ℚ
  h : Option ℚ
  textX : ℚ
  textY : ℚ
  color : String
  textShadowColor : Option String
  font : Text.Font

/-- The mutable module state of `core.ts`: the current `_state` and the
`_stack` of saved states (top of stack first). -/
structure CoreState where
  state : DrawState
  stack : List DrawState

/-- `save()` from `src/src/core.ts`: `_stack.push(_state); _state = {..._state}`
(push the current state, continue with a copy). -/
def save (cs : CoreState) : CoreState :=
  { state := cs.state, stack := cs.state :: cs.stack }

/-- `restore()` from `src/src/core.ts`:
`if (_stack.length) { _state = _stack.pop()! }` — a silent no-op when the
stack is empty. -/
def restore (cs : CoreState) : CoreState :=
  match cs.stack with
  | [] => cs
  | s :: rest => { state := s, stack := rest }

/-- `view(x, y, w?, h?)` from `src/src/core.ts`: `save()`, then translate the
origin and adopt the provided size or inherit the parent's. -/
def view (x y : ℚ) (w h : Option ℚ) (cs : CoreState) : CoreState :=
  let cs := save cs
  { cs with
    state := { cs.state with
      x := cs.state.x + x
      y := cs.state.y + y
      w := match w with | some v => some v | none => cs.state.w
      h := match h with | some v => some v | none => cs.state.h } }

/-- `end()` from `src/src/core.ts`: just `restore()`. -/
def end' (cs : CoreState) : CoreState :=
  restore cs

/-- `font(f)` from `src/src/core.ts`. -/
def setFont (f : Text.Font) (cs : CoreState) : CoreState :=
  { cs with state := { cs.state with font := f } }

/-- `color(c)` from `src/src/core.ts`. -/
def setColor (c : String) (cs : CoreState) : CoreState :=
  { cs with state := { cs.state with color := c } }

/-- `cursor(x, y, col, shadow)` from `src/src/core.ts`. -/
def setCursor (x y : ℚ) (c : String) (sh : Option String) (cs : CoreState) : CoreState :=
  { cs with state := { cs.state with
      textX := x
      textY := y
      color := c
      textShadowColor := sh } }

/-- The draw-state operations of `core.ts` as syntax, so that sequences of
calls can be quantified over. -/
inductive Op where
  | save : Op
  | restore : Op
  | view (x y : ℚ) (w h : Option ℚ) : Op
  | end' : Op
  | font (f : Text.Font) : Op
  | color (c : String) : Op
  | cursor (x y : ℚ) (c : String) (sh : Option String) : Op

/-- Execute one operation. -/
def exec : Op → CoreState → CoreState
  | .save => save
  | .restore => restore
  | .view x y w h => view x y w h
  | .end' => end'
  | .font f => setFont f
  | .color c => setColor c
  | .cursor x y c sh => setCursor x y c sh

/-- Execute a sequence of operations in order. -/
def execList (ops : List Op) (cs : CoreState) : CoreState :=
  ops.foldl (fun cs op => exec op cs) cs

/-- Operations that push a copy onto the stack. -/
def pushLike : Op → Bool
  | .save => true
  | .view _ _ _ _ => true
  | _ => false

/-- Operations that pop the stack. -/
def popLike : Op → Bool
  | .restore => true
  | .end' => true
  | _ => false

/-- Operations that only mutate the current state. -/
def flatLike : Op → Bool
  | .font _ => true
  | .color _ => true
  | .cursor _ _ _ _ => true
  | _ => false

/-- Balanced call sequences: every push (`save`/`view`) is matched by exactly
one later pop (`restore`/`end`), with properly nested pairs; state-only
operations may appear anywhere. -/
inductive Balanced : List Op → Prop
  | nil : Balanced []
  | flat (op : Op) (P : List Op) : flatLike op = true → Balanced P →
      Balanced (op :: P)
  | node (opPush opPop : Op) (P Q : List Op) : pushLike opPush = true →
      popLike opPop = true → Balanced P → Balanced Q →
      Balanced (opPush :: (P ++ opPop :: Q))

lemma execList_append (A B : List Op) (cs : CoreState) :
    execList (A ++ B) cs = execList B (execList A cs) := by
  simp [execList, List.foldl_append]

lemma execList_cons (op : Op) (P : List Op) (cs : CoreState) :
    execList (op :: P) cs = execList P (exec op cs) := rfl

lemma exec_push_stack (op : Op) (h : pushLike op = true) (cs : CoreState) :
    (exec op cs).stack = cs.state :: cs.stack := by
  cases op <;> simp_all [pushLike, exec, save, view]

lemma exec_pop (op : Op) (h : popLike op = true) (s t : DrawState)
    (rest : List DrawState) :
    exec op { state := s, stack := t :: rest } = { state := t, stack := rest } := by
  cases op <;> simp_all [popLike, exec, restore, end']

lemma exec_flat (op : Op) (h : flatLike op = true) (cs : CoreState) :
    (exec op cs).stack = cs.stack := by
  cases op <;> simp_all [flatLike, exec, setFont, setColor, setCursor]

/-- A balanced sequence leaves the stack exactly as it found it. -/
lemma balanced_stack {P : List Op} (hP : Balanced P) :
    ∀ cs : CoreState, (execList P cs).stack = cs.stack := by
  induction hP with
  | nil => intro cs; rfl
  | flat op P hop hP ih =>
    intro cs
    rw [execList_cons, ih, exec_flat op hop]
  | node opPush opPop P Q hpush hpop hP hQ ihP ihQ =>
    intro cs
    rw [execList_cons, execList_append, execList_cons, ihQ]
    have h1 : (execList P (exec opPush cs)).stack = cs.state :: cs.stack := by
      rw [ihP, exec_push_stack opPush hpush]
    rcases hE : execList P (exec opPush cs) with ⟨s, stk⟩
    rw [hE] at h1
    simp only at h1
    rw [h1, exec_pop opPop hpop]

/-- After a balanced sequence, a pop restores exactly the state that was
current before the matching push. -/
lemma balanced_pop {P : List Op} (hP : Balanced P) (opPop : Op)
    (hpop : popLike opPop = true) (s : DrawState) (cs : CoreState) :
    exec opPop (execList P { state := s, stack := cs.state :: cs.stack }) = cs := by
  have h1 := balanced_stack hP { state := s, stack := cs.state :: cs.stack }
  rcases hE : execList P { state := s, stack := cs.state :: cs.stack } with ⟨s', stk⟩
  rw [hE] at h1
  simp only at h1
  rw [h1, exec_pop opPop hpop]

/-- Claim C5: `view(x, y, w, h)` followed (after any balanced sequence of
stack operations) by `end()` restores the entire draw state: every field of
`{x, y, w, h, font, color, textX, textY, textShadowColor}` and the stack are
exactly as before the `view` call. -/
theorem c5_view_end_roundtrip (cs : CoreState) (x y : ℚ) (w h : Option ℚ)
    (P : List Op) (hP : Balanced P) :
    execList (Op.view x y w h :: (P ++ [Op.end'])) cs = cs := by
  rw [execList_cons, execList_append]
  show execList [Op.end'] (execList P (exec (Op.view x y w h) cs)) = cs
  have hst : exec (Op.view x y w h) cs =
      { state := (exec (Op.view x y w h) cs).state, stack := cs.state :: cs.stack } := by
    rcases hE : exec (Op.view x y w h) cs with ⟨s', stk⟩
    have := exec_push_stack (Op.view x y w h) rfl cs
    rw [hE] at this
    simp only at this
    rw [this]
  rw [hst]
  exact balanced_pop hP Op.end' rfl _ cs

/-- The base draw state of `core.ts` (`_state` initial value), with the
`font2` metrics standing in for the default font. -/
def baseState : DrawState :=
  { x := 0
    y := 0
    w := none
    h := none
    textX := 0
    textY := 0
    color := "black"
    textShadowColor := none
    font := Text.font2 }

/-- Witness for C5: a concrete round trip through a nested view with color
and cursor changes in between. -/
theorem c5_witness :
    Balanced [Op.color "red", Op.save, Op.cursor 3 4 "blue" none, Op.restore] ∧
      execList (Op.view 10 10 (some 50) none ::
          ([Op.color "red", Op.save, Op.cursor 3 4 "blue" none, Op.restore] ++
            [Op.end']))
        { state := baseState, stack := [] } =
        { state := baseState, stack := [] } := by
  have hb : Balanced [Op.color "red", Op.save, Op.cursor 3 4 "blue" none,
      Op.restore] :=
    Balanced.flat _ _ rfl
      (Balanced.node Op.save Op.restore [Op.cursor 3 4 "blue" none] [] rfl rfl
        (Balanced.flat _ _ rfl Balanced.nil) Balanced.nil)
  exact ⟨hb, c5_view_end_roundtrip _ 10 10 (some 50) none _ hb⟩

/-- Save/restore-only sequences. -/
def SROnly (P : List Op) : Prop :=
  ∀ op ∈ P, op = Op.save ∨ op = Op.restore

/-- A balanced sequence of saves and restores alone is the identity on the
whole core state. -/
lemma balanced_sr_id {P : List Op} (hsr : SROnly P) (hP : Balanced P) :
    ∀ cs : CoreState, execList P cs = cs := by
  induction hP with
  | nil => intro cs; rfl
  | flat op P hop hP ih =>
    rcases hsr op (List.mem_cons_self op P) with rfl | rfl <;> simp [flatLike] at hop
  | node opPush opPop P Q hpush hpop hP hQ ihP ihQ =>
    intro cs
    have hpusheq : opPush = Op.save := by
      rcases hsr opPush (List.mem_cons_self _ _) with rfl | rfl
      · rfl
      · simp [pushLike] at hpush
    have hsrP : SROnly P := fun op hop =>
      hsr op (List.mem_cons_of_mem _ (List.mem_append_left _ hop))
    have hsrQ : SROnly Q := fun op hop =>
      hsr op (List.mem_cons_of_mem _ (List.mem_append_right _ (List.mem_cons_of_mem _ hop)))
    subst hpusheq
    rw [execList_cons, execList_append]
    show execList (opPop :: Q) (execList P (exec Op.save cs)) = cs
    rw [ihP hsrP, execList_cons]
    have : exec Op.save cs = { state := cs.state, stack := cs.state :: cs.stack } := rfl
    rw [this, exec_pop opPop hpop]
    have hcs : ({ state := cs.state, stack := cs.stack } : CoreState) = cs := by
      cases cs
      rfl
    rw [hcs, ihQ hsrQ]

/-- Surplus restores on an empty stack are no-ops. -/
lemma restore_replicate (k : ℕ) :
    ∀ cs : CoreState, cs.stack = [] →
      execList (List.replicate k Op.restore) cs = cs := by
  induction k with
  | zero => intro cs _; rfl
  | succ k ih =>
    intro cs hcs
    rw [List.replicate_succ, execList_cons]
    have : exec Op.restore cs = cs := by
      rcases cs with ⟨s, stk⟩
      simp only at hcs
      subst hcs
      rfl
    rw [this, ih cs hcs]

/-- Claim C9: `restore()` (and `end()`) on an empty stack is a silent no-op on
the draw state; consequently, starting from an empty stack, any balanced
sequence of `save`/`restore` calls followed by any number of surplus restores
leaves the current draw state unchanged, the stack empty, and the base state
intact. -/
theorem c9_restore_empty_noop :
    (∀ cs : CoreState, cs.stack = [] → exec Op.restore cs = cs ∧ exec Op.end' cs = cs) ∧
    (∀ (cs : CoreState) (P : List Op) (k : ℕ), cs.stack = [] → SROnly P → Balanced P →
      execList (P ++ List.replicate k Op.restore) cs = cs) := by
  constructor
  · intro cs hcs
    rcases cs with ⟨s, stk⟩
    simp only at hcs
    subst hcs
    exact ⟨rfl, rfl⟩
  · intro cs P k hcs hsr hP
    rw [execList_append, balanced_sr_id hsr hP, restore_replicate k cs hcs]

/-- Witness for C9: `save; restore; restore; restore` from an empty stack is
the identity. -/
theorem c9_witness :
    (({ state := baseState, stack := [] } : CoreState).stack = [] ∧
      SROnly [Op.save, Op.restore] ∧ Balanced [Op.save, Op.restore]) ∧
      execList ([Op.save, Op.restore] ++ List.replicate 2 Op.restore)
        { state := baseState, stack := [] } =
        { state := baseState, stack := [] } := by
  have hsr : SROnly [Op.save, Op.restore] := by
    intro op hop
    simp only [List.mem_cons, List.mem_singleton, List.not_mem_nil, or_false] at hop
    exact hop
  have hb : Balanced [Op.save, Op.restore] :=
    Balanced.node Op.save Op.restore [] [] rfl rfl Balanced.nil Balanced.nil
  exact ⟨⟨rfl, hsr, hb⟩, c9_restore_empty_noop.2 _ _ 2 rfl hsr hb⟩

end Core

namespace Input

/-! ## index.ts: the input snapshot model

`_down`, `_pressed`, `_released` from `src/src/index.ts` are sets of buttons
(string key names or integer pointer-button indices), modelled as
characteristic functions.  The event handlers `onKeyDown`/`onKeyUp`/
`onPointerDown`/`onPointerUp` and the frame-boundary reset `_updateInputs`
are translated directly. -/

/-- The shared button namespace: a keyboard key name or a pointer button
index (`InputButton` in `src/src/index.ts`). -/
abbrev Button := String ⊕ Nat

/-- The three button sets of the input snapshot. -/
structure InputState where
  down : Button → Bool
  pressed : Button → Bool
  released : Button → Bool

/-- Set one button's membership in a set. -/
def setBtn (f : Button → Bool) (b : Button) (v : Bool) : Button → Bool :=
  fun b' => if b' = b then v else f b'

/-- `onKeyDown` (`src/src/index.ts` lines 229–232):
`_down.add(event.key); _pressed.add(event.key)`. -/
def onKeyDown (k : String) (s : InputState) : InputState :=
  { s with
    down := setBtn s.down (Sum.inl k) true
    pressed := setBtn s.pressed (Sum.inl k) true }

/-- `onKeyUp` (`src/src/index.ts` lines 234–237):
`_down.delete(event.key); _released.add(event.key)`. -/
def onKeyUp (k : String) (s : InputState) : InputState :=
  { s with
    down := setBtn s.down (Sum.inl k) false
    released := setBtn s.released (Sum.inl k) true }

/-- `onPointerDown` (`src/src/index.ts` lines 219–222). -/
def onPointerDown (n : Nat) (s : InputState) : InputState :=
  { s with
    down := setBtn s.down (Sum.inr n) true
    pressed := setBtn s.pressed (Sum.inr n) true }

/-- `onPointerUp` (`src/src/index.ts` lines 224–227). -/
def onPointerUp (n : Nat) (s : InputState) : InputState :=
  { s with
    down := setBtn s.down (Sum.inr n) false
    released := setBtn s.released (Sum.inr n) true }

/-- `_updateInputs` (`src/src/index.ts` lines 372–375), the frame-boundary
reset: `_pressed.clear(); _released.clear()`. -/
def updateInputs (s : InputState) : InputState :=
  { s with pressed := fun _ => false, released := fun _ => false }

/-- `down(btn)` / `pressed(btn)` / `released(btn)` accessors. -/
def down (s : InputState) (b : Button) : Bool := s.down b

def pressed (s : InputState) (b : Button) : Bool := s.pressed b

def released (s : InputState) (b : Button) : Bool := s.released b

lemma setBtn_same (f : Button → Bool) (b : Button) (v : Bool) :
    setBtn f b v b = v := by
  simp [setBtn]

/-- Claim C6: from a state where key `k` is not down, a key-down event makes
`down` and `pressed` true; after a frame-advance `down` is still true and
`pressed` is false; a key-up event makes `down` false and `released` true;
after a further frame-advance `released` is false.  The same holds for
pointer buttons.  Moreover in every state the frame-boundary reset clears
exactly `pressed` and `released` and leaves `down` untouched. -/
theorem c6_input_frame_semantics :
    (∀ (s : InputState) (k : String), s.down (Sum.inl k) = false →
      (down (onKeyDown k s) (Sum.inl k) = true ∧
        pressed (onKeyDown k s) (Sum.inl k) = true) ∧
      (down (updateInputs (onKeyDown k s)) (Sum.inl k) = true ∧
        pressed (updateInputs (onKeyDown k s)) (Sum.inl k) = false) ∧
      (down (onKeyUp k (updateInputs (onKeyDown k s))) (Sum.inl k) = false ∧
        released (onKeyUp k (updateInputs (onKeyDown k s))) (Sum.inl k) = true) ∧
      released (updateInputs (onKeyUp k (updateInputs (onKeyDown k s))))
        (Sum.inl k) = false) ∧
    (∀ (s : InputState) (n : Nat), s.down (Sum.inr n) = false →
      (down (onPointerDown n s) (Sum.inr n) = true ∧
        pressed (onPointerDown n s) (Sum.inr n) = true) ∧
      (down (updateInputs (onPointerDown n s)) (Sum.inr n) = true ∧
        pressed (updateInputs (onPointerDown n s)) (Sum.inr n) = false) ∧
      (down (onPointerUp n (updateInputs (onPointerDown n s))) (Sum.inr n) = false ∧
        released (onPointerUp n (updateInputs (onPointerDown n s))) (Sum.inr n) = true) ∧
      released (updateInputs (onPointerUp n (updateInputs (onPointerDown n s))))
        (Sum.inr n) = false) ∧
    (∀ s : InputState,
      (updateInputs s).down = s.down ∧
      (∀ b, (updateInputs s).pressed b = false) ∧
      (∀ b, (updateInputs s).released b = false)) := by
  refine ⟨?_, ?_, ?_⟩
  · intro s k _
    refine ⟨⟨?_, ?_⟩, ⟨?_, ?_⟩, ⟨?_, ?_⟩, ?_⟩ <;>
      simp [down, pressed, released, onKeyDown, onKeyUp, updateInputs, setBtn]
  · intro s n _
    refine ⟨⟨?_, ?_⟩, ⟨?_, ?_⟩, ⟨?_, ?_⟩, ?_⟩ <;>
      simp [down, pressed, released, onPointerDown, onPointerUp, updateInputs, setBtn]
  · intro s
    exact ⟨rfl, fun b => rfl, fun b => rfl⟩

/-- The all-clear input state. -/
def inputState0 : InputState :=
  { down := fun _ => false, pressed := fun _ => false, released := fun _ => false }

/-- Witness for C6 with the "Enter" key from the all-clear state. -/
theorem c6_witness :
    inputState0.down (Sum.inl "Enter") = false ∧
      down (onKeyDown "Enter" inputState0) (Sum.inl "Enter") = true ∧
      pressed (updateInputs (onKeyDown "Enter" inputState0)) (Sum.inl "Enter") = false ∧
      released (onKeyUp "Enter" (updateInputs (onKeyDown "Enter" inputState0)))
        (Sum.inl "Enter") = true := by
  have h := c6_input_frame_semantics.1 inputState0 "Enter" rfl
  exact ⟨rfl, h.1.1, h.2.1.2, h.2.2.1.2⟩

end Input

namespace Keys

/-! ## particles.ts / utils.ts: the text-render cache key

`write` (`src/src/particles.ts` lines 1252–1314) builds its cache key with
a template literal over `getKey` values:

`let key = \`text:${font.url}/${getKey(color)}/${getKey(shadow)}/${text}\``

`getKey` (`src/src/utils.ts` lines 14–28) returns non-objects (strings,
`undefined`) unchanged and maps object fills (gradients/patterns) to fresh
numbers via a `WeakMap`.  A `Fill` is therefore modelled as either a CSS
color string or an object already identified by its `WeakMap` number; the
template literal renders `undefined` (an absent shadow) as the string
`"undefined"`. -/

/-- A `Fill` as it appears inside the cache key: a string fill is interpolated
verbatim (`getKey` returns non-objects unchanged); an object fill contributes
its `WeakMap` number. -/
def getKeyStr : String ⊕ Nat → String
  | Sum.inl s => s
  | Sum.inr n => toString n

/-- `${getKey(shadow)}` where `shadow` may be `undefined`. -/
def shadowKeyStr : Option (String ⊕ Nat) → String
  | none => "undefined"
  | some f => getKeyStr f

/-- The cache key built by `write`:
`"text:" + url + "/" + colorKey + "/" + shadowKey + "/" + text`. -/
def writeKey (url : String) (color : String ⊕ Nat)
    (shadow : Option (String ⊕ Nat)) (text : String) : String :=
  "text:" ++ url ++ "/" ++ getKeyStr color ++ "/" ++ shadowKeyStr shadow ++
    "/" ++ text

/-- Claim C2 is false on the code: the naive string interpolation collides.
The distinct tuples `(url="a/b", color="c", shadow=undefined, text="t")` and
`(url="a", color="b/c", shadow=undefined, text="t")` both produce the cache
key `"text:a/b/c/undefined/t"`, so two distinct (font, color, shadow, text)
combinations share one cache entry. -/
theorem c2_write_cache_key_collision :
    writeKey "a/b" (Sum.inl "c") none "t" = writeKey "a" (Sum.inl "b/c") none "t" ∧
      writeKey "a/b" (Sum.inl "c") none "t" = "text:a/b/c/undefined/t" ∧
      ("a/b", (Sum.inl "c" : String ⊕ Nat), (none : Option (String ⊕ Nat)), "t") ≠
        ("a", (Sum.inl "b/c" : String ⊕ Nat), (none : Option (String ⊕ Nat)), "t") := by
  refine ⟨by decide, by decide, by decide⟩

end Keys

namespace Slice

/-! ## particles.ts: 9-slice composition

`draw9Slice` (`src/src/particles.ts` lines 1148–1207).  The model returns
the dimensions given to the composed canvas together with the nine
`(source rectangle, destination rectangle)` pairs passed to `drawImage`. -/

/-- A rectangle in pixels. -/
structure Rect where
  x : ℤ
  y : ℤ
  w : ℤ
  h : ℤ

/-- A 9-slice sprite: its atlas rectangle plus the declared center
sub-rectangle (relative to the sprite). -/
structure NineSliceSprite where
  url : String
  x : ℤ
  y : ℤ
  w : ℤ
  h : ℤ
  center : Rect

/-- `draw9Slice(sprite, x, y, w, h)`: column/row corner sizes are derived
from the center rectangle, `w`/`h` are clamped to the corner budget
(`w = Math.max(w, left + right)`, `h = Math.max(h, top + bottom)`), the
canvas is sized to the clamped `(w, h)`, and nine `drawImage` calls compose
corners, edges and center. -/
def draw9Slice (spr : NineSliceSprite) (w h : ℤ) : (ℤ × ℤ) × List (Rect × Rect) :=
  let sx := spr.x
  let sy := spr.y
  let sw := spr.w
  let sh := spr.h
  let cx := spr.center.x
  let cy := spr.center.y
  let cw := spr.center.w
  let ch := spr.center.h
  let left := cx
  let top := cy
  let right := sw - cw - cx
  let bottom := sh - ch - cy
  let w := max w (left + right)
  let h := max h (top + bottom)
  let sx0 := sx
  let sx1 := sx0 + left
  let sx2 := sw - right
  let sy0 := sy
  let sy1 := sy0 + top
  let sy2 := sy0 + sh - bottom
  let dx0 := 0
  let dx1 := dx0 + left
  let dx2 := dx0 + w - right
  let dy0 := 0
  let dy1 := dy0 + top
  let dy2 := dy0 + h - bottom
  let dcw := w - left - right
  let dch := h - top - bottom
  ((w, h),
   [(⟨sx0, sy0, left, top⟩, ⟨dx0, dy0, left, top⟩),
    (⟨sx2, sy0, right, top⟩, ⟨dx2, dy0, right, top⟩),
    (⟨sx0, sy2, left, bottom⟩, ⟨dx0, dy2, left, bottom⟩),
    (⟨sx2, sy2, right, bottom⟩, ⟨dx2, dy2, right, bottom⟩),
    (⟨sx1, sy0, cw, top⟩, ⟨dx1, dy0, dcw, top⟩),
    (⟨sx1, sy2, cw, bottom⟩, ⟨dx1, dy2, dcw, bottom⟩),
    (⟨sx0, sy1, left, ch⟩, ⟨dx0, dy1, left, dch⟩),
    (⟨sx2, sy1, right, ch⟩, ⟨dx2, dy1, right, dch⟩),
    (⟨sx1, sy1, cw, ch⟩, ⟨dx1, dy1, dcw, dch⟩)])

/-- Claim C7: for a sprite whose center rectangle lies inside it, requesting a
size below the corner budget (`w < left + right` or `h < top + bottom`) yields
an output canvas whose dimensions are exactly `max(w, left + right)` by
`max(h, top + bottom)` — the corner-budget floor — and none of the nine
source or destination sub-rectangles has negative width or height. -/
theorem c7_draw9slice_clamp (spr : NineSliceSprite) (w h : ℤ)
    (hcx : 0 ≤ spr.center.x) (hcy : 0 ≤ spr.center.y)
    (hcw : 0 ≤ spr.center.w) (hch : 0 ≤ spr.center.h)
    (hxw : spr.center.x + spr.center.w ≤ spr.w)
    (hyh : spr.center.y + spr.center.h ≤ spr.h)
    (hsmall : w < spr.center.x + (spr.w - spr.center.w - spr.center.x) ∨
      h < spr.center.y + (spr.h - spr.center.h - spr.center.y)) :
    (draw9Slice spr w h).1 =
      (max w (spr.center.x + (spr.w - spr.center.w - spr.center.x)),
       max h (spr.center.y + (spr.h - spr.center.h - spr.center.y))) ∧
    ∀ pr ∈ (draw9Slice spr w h).2,
      0 ≤ pr.1.w ∧ 0 ≤ pr.1.h ∧ 0 ≤ pr.2.w ∧ 0 ≤ pr.2.h := by
  constructor
  · rfl
  · intro pr hpr
    have hwmax := le_max_right w (spr.center.x + (spr.w - spr.center.w - spr.center.x))
    have hhmax := le_max_right h (spr.center.y + (spr.h - spr.center.h - spr.center.y))
    simp only [draw9Slice, List.mem_cons, List.not_mem_nil, or_false] at hpr
    rcases hpr with rfl | rfl | rfl | rfl | rfl | rfl | rfl | rfl | rfl <;>
      refine ⟨?_, ?_, ?_, ?_⟩ <;> dsimp <;> linarith

/-- The repository's `nine_slice` test sprite: a 9×9 sprite with a 3×3
center. -/
def nineSlice : NineSliceSprite :=
  { url := "sprites.png", x := 0, y := 0, w := 9, h := 9,
    center := { x := 3, y := 3, w := 3, h := 3 } }

/-- Witness for C7: drawing the 9×9/3×3 sprite at the too-small size 5×5
produces a 6×6 canvas. -/
theorem c7_witness :
    ((0 : ℤ) ≤ nineSlice.center.x ∧ (5 : ℤ) < nineSlice.center.x +
      (nineSlice.w - nineSlice.center.w - nineSlice.center.x)) ∧
      (draw9Slice nineSlice 5 5).1 = (6, 6) := by
  have h := c7_draw9slice_clamp nineSlice 5 5 (by decide) (by decide) (by decide)
    (by decide) (by decide) (by decide) (Or.inl (by decide))
  refine ⟨⟨by decide, by decide⟩, ?_⟩
  rw [h.1]
  decide

end Slice

namespace LRU

/-! ## utils.ts: LRUCache

`LRUCache` (`src/src/utils.ts` lines 59–111) is a `Map` plus an intrusive
doubly-linked list of nodes.  The JavaScript heap of node objects is modelled
explicitly: nodes live in a store indexed by allocation id, and the `next`/
`prev`/`head`/`tail` references are optional node ids (`none` = `null`).
Reading a property of `null` — which in JavaScript throws a `TypeError` —
is modelled by the `Except` monad. -/

/-- An `LRUNode`: key, value, and the intrusive list links. -/
structure Node where
  key : Nat
  value : Nat
  next : Option Nat
  prev : Option Nat

/-- Association-list get (models both the node heap and the `Map`). -/
def getA {α : Type} : List (Nat × α) → Nat → Option α
  | [], _ => none
  | p :: rest, k => if p.1 = k then some p.2 else getA rest k

/-- Association-list set: replace an existing binding or append. -/
def setA {α : Type} : List (Nat × α) → Nat → α → List (Nat × α)
  | [], k, v => [(k, v)]
  | p :: rest, k, v => if p.1 = k then (k, v) :: rest else p :: setA rest k v

/-- Association-list delete (first binding). -/
def delA {α : Type} : List (Nat × α) → Nat → List (Nat × α)
  | [], _ => []
  | p :: rest, k => if p.1 = k then rest else p :: delA rest k

/-- The `LRUCache` state: the node heap, the `cache` map from keys to node
ids, the `head`/`tail` references and an allocation counter. -/
structure LRUCache where
  maxSize : Nat
  store : List (Nat × Node)
  cacheMap : List (Nat × Nat)
  head : Option Nat
  tail : Option Nat
  nextId : Nat

/-- A fresh cache of the given capacity. -/
def emptyCache (maxSize : Nat) : LRUCache :=
  { maxSize := maxSize, store := [], cacheMap := [], head := none,
    tail := none, nextId := 0 }

/-- Dereference an optional node id; `null` property access throws. -/
def deref (o : Option Nat) : Except String Nat :=
  match o with
  | none => Except.error "TypeError: null dereference"
  | some nid => Except.ok nid

/-- Fetch a node object from the heap. -/
def getNode (c : LRUCache) (nid : Nat) : Except String Node :=
  match getA c.store nid with
  | none => Except.error "dangling node id"
  | some n => Except.ok n

/-- `LRUCache.set(key, value)` from `src/src/utils.ts`, statement by
statement: early-return when the key is present (no value update, no recency
bump); allocate the node; seed `head`/`tail` when the map is empty; when
`size >= maxSize`, delete the tail's key, move `tail` to `tail.prev` and
clear the new tail's `next` (dereferencing `null` when `tail.prev` was
`null`); finally link the node in front of `head` and store the binding. -/
def set (c : LRUCache) (k v : Nat) : Except String LRUCache := do
  if (getA c.cacheMap k).isSome then
    return c
  let nid := c.nextId
  let node : Node := { key := k, value := v, next := none, prev := none }
  let c := { c with nextId := nid + 1, store := setA c.store nid node }
  let c :=
    if c.cacheMap.length = 0 then
      { c with
        head := some nid
        tail := some nid
        cacheMap := setA c.cacheMap k nid }
    else c
  let c ← do
    if c.maxSize ≤ c.cacheMap.length then
      let tid ← deref c.tail
      let tnode ← getNode c tid
      let c := { c with cacheMap := delA c.cacheMap tnode.key }
      let c := { c with tail := tnode.prev }
      let tid2 ← deref c.tail
      let tnode2 ← getNode c tid2
      pure { c with store := setA c.store tid2 { tnode2 with next := none } }
    else
      pure c
  let hid ← deref c.head
  let hnode ← getNode c hid
  let c := { c with store := setA c.store hid { hnode with prev := some nid } }
  let nnode ← getNode c nid
  let c := { c with store := setA c.store nid { nnode with next := c.head } }
  let c := { c with head := some nid }
  return { c with cacheMap := setA c.cacheMap k nid }

/-- `LRUCache.get(key)` from `src/src/utils.ts`: a miss returns `undefined`;
a hit on the head returns immediately; otherwise the node is unlinked (with
the tail special case) and moved to the front. -/
def get (c : LRUCache) (k : Nat) : Except String (Option Nat × LRUCache) := do
  match getA c.cacheMap k with
  | none => return (none, c)
  | some nid =>
    let node ← getNode c nid
    if c.head = some nid then
      return (some node.value, c)
    let c ← do
      if c.tail = some nid then
        let c := { c with tail := node.prev }
        let tid ← deref c.tail
        let tn ← getNode c tid
        pure { c with store := setA c.store tid { tn with next := none } }
      else
        let pid ← deref node.prev
        let pn ← getNode c pid
        let c := { c with store := setA c.store pid { pn with next := node.next } }
        let nid2 ← deref node.next
        let nn ← getNode c nid2
        pure { c with store := setA c.store nid2 { nn with prev := node.prev } }
    let hid ← deref c.head
    let hn ← getNode c hid
    let c := { c with store := setA c.store hid { hn with prev := some nid } }
    let n2 ← getNode c nid
    let n2' := { n2 with next := c.head }
    let c := { c with store := setA c.store nid { n2' with prev := none } }
    let c := { c with head := some nid }
    return (some node.value, c)

/-- A cache operation. -/
inductive OpL where
  | set (k v : Nat) : OpL
  | get (k : Nat) : OpL

/-- Run a sequence of operations, collecting the result of every `get`. -/
def runOps (c : LRUCache) : List OpL → Except String (LRUCache × List (Option Nat))
  | [] => Except.ok (c, [])
  | OpL.set k v :: rest => do
    let c ← set c k v
    runOps c rest
  | OpL.get k :: rest => do
    let r ← get c k
    let r' ← runOps r.2 rest
    return (r'.1, r.1 :: r'.2)

/-- The `get` results of a run, `none` when the run threw. -/
def runResults (maxSize : Nat) (ops : List OpL) : Option (List (Option Nat)) :=
  match runOps (emptyCache maxSize) ops with
  | Except.ok r => some r.2
  | Except.error _ => none

/-- Claim C8 is false on the code: the very first `set` on a capacity-1 cache
throws.  After the first insertion the map already has size 1, so the eviction
branch runs, deletes the just-inserted node, sets `tail` to its `prev`
(`null`) and then writes `this.tail!.next` — a property write on `null`. -/
theorem c8_lru_maxsize_one_throws :
    set (emptyCache 1) 0 0 = Except.error "TypeError: null dereference" := by
  rfl

/-- Model validation: the exact operation sequence of the `"lru cache"` test
in `src/src/utils.test.ts` (capacity 3, keys a=0, b=1, c=2, d=3) yields the
get results the test asserts. -/
theorem lru_model_matches_unit_test :
    runResults 3
      [OpL.get 0, OpL.set 0 1, OpL.set 1 2, OpL.set 2 3,
       OpL.get 0, OpL.get 1, OpL.get 2, OpL.set 3 4,
       OpL.get 0, OpL.get 1, OpL.get 2, OpL.get 3, OpL.set 0 5,
       OpL.get 0, OpL.get 1, OpL.get 2, OpL.get 3] =
      some [none, some 1, some 2, some 3,
        none, some 2, some 3, some 4,
        some 5, none, some 3, some 4] := by
  rfl

/-- A second deviation from the claim's LRU reading, at capacity 2: `set` of
an existing key is a silent no-op (no recency bump, no value update).  After
`set a=1, set b=2, set a=2, set c=3` the evicted key is `a` — whose last `set`
was the most recent — and `a`'s value was never updated to 2. -/
theorem lru_set_existing_no_refresh :
    runResults 2
      [OpL.set 0 1, OpL.set 1 2, OpL.set 0 2, OpL.set 2 3, OpL.get 0,
       OpL.get 1, OpL.get 2] =
      some [none, some 2, some 3] := by
  rfl

end LRU

end Games
